import Mathlib

/- Verification of arborphy/arq-research: the taxonomy hierarchy derivation
engine (src/kg/model/derived/taxonomy.py, src/kg/model/core/taxon.py) and the
declarative entity compiler (src/kg/model/compiler/compile.py, dsl.py).

The taxonomy rules are transcribed from `define_taxonomy`: the bound Taxon
state is a finite graph of nodes carrying a taxonomic rank and parent edges
(one row of the TAXON source per edge).  The rank views TaxonSpecies,
TaxonGenus, ... over Taxon (`define_taxon`, lines 64-83) become `inView`. -/

namespace Arq

/-- Taxonomic ranks: the rank views defined in `define_taxon` lines 64-83
(TAXONRANK values "species", "genus", "family", "order", "class", "phylum",
"kingdom"). -/
inductive Rank where
  | species
  | genus
  | family
  | order
  | class_
  | phylum
  | kingdom
deriving DecidableEq, Repr

/-- The bound Taxon graph: node ids (the Taxon population), the functional
rank assignment (TAXONRANK per taxon id), and the parent edges produced by the
binding in `define_taxon` lines 52-58. -/
structure TaxonGraph where
  nodes : List Nat
  ranks : List (Nat × Rank)
  parents : List (Nat × Nat)
deriving DecidableEq, Repr

def TaxonGraph.rank (g : TaxonGraph) (n : Nat) : Option Rank :=
  (g.ranks.find? (fun p => p.1 == n)).map (fun p => p.2)

def TaxonGraph.parentEdge (g : TaxonGraph) (n x : Nat) : Bool :=
  g.parents.contains (n, x)

/-- Membership of a node in a rank view (e.g. `m.TaxonGenus`): the node is in
the Taxon population and its rank is `r`. -/
def inView (g : TaxonGraph) (r : Rank) (n : Nat) : Bool :=
  g.nodes.contains n && g.rank n == some r

/-- An unbroken parent chain from `n` through the listed rank views ending at
`a` (each `where` clause of a strict rule in `define_taxonomy` is one step:
the next node is a ref of the next rank view reached by one parent edge).
`chainTo g n [] a` is the degenerate chain, `n = a`. -/
def chainTo (g : TaxonGraph) : Nat → List Rank → Nat → Bool
  | n, [], a => n == a
  | n, [r], a => inView g r a && g.parentEdge n a
  | n, r :: r2 :: rs, a =>
    g.nodes.any (fun x => inView g r x && g.parentEdge n x && chainTo g x (r2 :: rs) a)

/-- Genus relationships, `define_taxonomy` lines 24-27. -/
def strictGenus (g : TaxonGraph) (n a : Nat) : Bool :=
  (inView g Rank.species n && chainTo g n [Rank.genus] a)
  || (inView g Rank.genus n && n == a)

/-- Family relationships, `define_taxonomy` lines 30-37. -/
def strictFamily (g : TaxonGraph) (n a : Nat) : Bool :=
  (inView g Rank.species n && chainTo g n [Rank.genus, Rank.family] a)
  || (inView g Rank.genus n && chainTo g n [Rank.family] a)
  || (inView g Rank.family n && n == a)

/-- Order relationships, `define_taxonomy` lines 39-51. -/
def strictOrder (g : TaxonGraph) (n a : Nat) : Bool :=
  (inView g Rank.species n && chainTo g n [Rank.genus, Rank.family, Rank.order] a)
  || (inView g Rank.genus n && chainTo g n [Rank.family, Rank.order] a)
  || (inView g Rank.family n && chainTo g n [Rank.order] a)
  || (inView g Rank.order n && n == a)

/-- Class relationships, `define_taxonomy` lines 53-71. -/
def strictClass (g : TaxonGraph) (n a : Nat) : Bool :=
  (inView g Rank.species n && chainTo g n [Rank.genus, Rank.family, Rank.order, Rank.class_] a)
  || (inView g Rank.genus n && chainTo g n [Rank.family, Rank.order, Rank.class_] a)
  || (inView g Rank.family n && chainTo g n [Rank.order, Rank.class_] a)
  || (inView g Rank.order n && chainTo g n [Rank.class_] a)
  || (inView g Rank.class_ n && n == a)

/-- Phylum relationships, `define_taxonomy` lines 73-98. -/
def strictPhylum (g : TaxonGraph) (n a : Nat) : Bool :=
  (inView g Rank.species n
      && chainTo g n [Rank.genus, Rank.family, Rank.order, Rank.class_, Rank.phylum] a)
  || (inView g Rank.genus n && chainTo g n [Rank.family, Rank.order, Rank.class_, Rank.phylum] a)
  || (inView g Rank.family n && chainTo g n [Rank.order, Rank.class_, Rank.phylum] a)
  || (inView g Rank.order n && chainTo g n [Rank.class_, Rank.phylum] a)
  || (inView g Rank.class_ n && chainTo g n [Rank.phylum] a)
  || (inView g Rank.phylum n && n == a)

/-- Kingdom relationships, `define_taxonomy` lines 100-133. -/
def strictKingdom (g : TaxonGraph) (n a : Nat) : Bool :=
  (inView g Rank.species n
      && chainTo g n [Rank.genus, Rank.family, Rank.order, Rank.class_, Rank.phylum, Rank.kingdom] a)
  || (inView g Rank.genus n
      && chainTo g n [Rank.family, Rank.order, Rank.class_, Rank.phylum, Rank.kingdom] a)
  || (inView g Rank.family n && chainTo g n [Rank.order, Rank.class_, Rank.phylum, Rank.kingdom] a)
  || (inView g Rank.order n && chainTo g n [Rank.class_, Rank.phylum, Rank.kingdom] a)
  || (inView g Rank.class_ n && chainTo g n [Rank.phylum, Rank.kingdom] a)
  || (inView g Rank.phylum n && chainTo g n [Rank.kingdom] a)
  || (inView g Rank.kingdom n && n == a)

/-- The set of (node, ancestor) pairs produced by strict-chain mode: the union
of the six rank relations of `define_taxonomy`. -/
def strictPairs (g : TaxonGraph) (n a : Nat) : Bool :=
  strictGenus g n a || strictFamily g n a || strictOrder g n a
  || strictClass g n a || strictPhylum g n a || strictKingdom g n a

/-- Modelled from the spec: the ancestor-closure derivation mode is wired into
the repository only through its callers (`define_arq(..., taxonomy_mode="ancestor")`
in kg/tests/test_taxonomy_modes.py and kg/apps/taxonomy_graph_demo.py); the
module that defines `Taxon.ancestor` is not among the source files.  Per the
spec, the generic ancestor relation is the reflexive base case (every node is
its own ancestor at distance 0) plus an unrolled transitive closure of
`parent` up to `maxHops` hops. -/
def ancestorUpTo (g : TaxonGraph) : Nat → Nat → Nat → Bool
  | 0, n, a => n == a && g.nodes.contains n
  | m + 1, n, a =>
    ancestorUpTo g m n a || g.nodes.any (fun x => g.parentEdge n x && ancestorUpTo g m x a)

/-- Modelled from the spec: rank-level relations of ancestor-closure mode are
derived by filtering: `n` relates to `a` at rank `r` iff `a` is in the
computed ancestor set of `n` and the rank of `a` equals `r`. -/
def ancestorRel (g : TaxonGraph) (maxHops : Nat) (r : Rank) (n a : Nat) : Bool :=
  ancestorUpTo g maxHops n a && inView g r a

def ranksList : List Rank :=
  [Rank.species, Rank.genus, Rank.family, Rank.order, Rank.class_, Rank.phylum, Rank.kingdom]

/-- Modelled from the spec: the set of (node, ancestor) pairs produced by
ancestor-closure mode, over all rank-level relations. -/
def ancestorPairs (g : TaxonGraph) (maxHops : Nat) (n a : Nat) : Bool :=
  ranksList.any (fun r => ancestorRel g maxHops r n a)

/-- Modelled from the spec: the two derivation strategies are selected at
derivation time by the `taxonomy_mode` argument of `define_arq` (values
"strict" and "ancestor" at its call sites), not mixable within one run. -/
inductive TaxonomyMode where
  | strict
  | ancestor
deriving DecidableEq, Repr

/-- Modelled from the spec: `maxHops` is a tunable parameter of
ancestor-closure mode, default observed = 8. -/
def defaultMaxHops : Nat := 8

/-- Modelled from the spec: the derivation engine dispatches on the selected
mode; strict-chain mode ignores `maxHops`, ancestor-closure mode is bounded
by it. -/
def deriveTaxonomyPairs (g : TaxonGraph) (mode : TaxonomyMode) (maxHops : Nat)
    (n a : Nat) : Bool :=
  match mode with
  | TaxonomyMode.strict => strictPairs g n a
  | TaxonomyMode.ancestor => ancestorPairs g maxHops n a

/-- A parent path of length `k` from `n` to `a` inside the Taxon population:
the chain depth actually realised in the graph. -/
inductive ParentPath (g : TaxonGraph) : Nat → Nat → Nat → Prop where
  | refl (n : Nat) : n ∈ g.nodes → ParentPath g n n 0
  | step {n x a k : Nat} : n ∈ g.nodes → g.parentEdge n x = true →
      ParentPath g x a k → ParentPath g n a (k + 1)

/-- Concrete 3-level chain Species(0) → Genus(1) → Family(2) used by the
witnesses. -/
def chainGraph : TaxonGraph :=
  ⟨[0, 1, 2], [(0, Rank.species), (1, Rank.genus), (2, Rank.family)], [(0, 1), (1, 2)]⟩

/-- Species(0) with a parent edge pointing directly at Family(2): the genus
rank is skipped. -/
def skipGraph : TaxonGraph :=
  ⟨[0, 2], [(0, Rank.species), (2, Rank.family)], [(0, 2)]⟩

/-- A species node with two parent edges, both of rank genus, each with its
own family parent: neither derivation rule assumes uniqueness of the ancestor
at a rank. -/
def multiParentGraph : TaxonGraph :=
  ⟨[0, 1, 2, 3, 4],
    [(0, Rank.species), (1, Rank.genus), (2, Rank.genus), (3, Rank.family), (4, Rank.family)],
    [(0, 1), (0, 2), (1, 3), (2, 4)]⟩

/-- A chain that passes through two nodes of rank family: ancestor-closure
mode relates the species to both of them even though every node has a single
parent edge. -/
def dupRankGraph : TaxonGraph :=
  ⟨[0, 1, 2], [(0, Rank.species), (1, Rank.family), (2, Rank.family)], [(0, 1), (1, 2)]⟩

/-- One row of the TAXON source table, with the columns used by
`define_taxon`. -/
structure TaxonRow where
  taxonid : Nat
  parentnameusageid : Nat
deriving DecidableEq, Repr

/-- The parent edge binding of `define_taxon` lines 52-58: `t1.parent(t2)`
holds iff `t1 != t2` and some source row has TAXONID = t1 and
PARENTNAMEUSAGEID = t2. -/
def boundParent (rows : List TaxonRow) (t1 t2 : Nat) : Bool :=
  (t1 != t2) && rows.any (fun r => r.taxonid == t1 && r.parentnameusageid == t2)

/- --------------------------------------------------------------------------
Entity compiler: kg/model/compiler/dsl.py and kg/model/compiler/compile.py.
The schema context is the set of concept names assigned on the model object
(`hasattr`/`setattr` in compile.py); emitted row-binding statements are
recorded in order.  Python `ValueError`s are the spec's SpecValidationError,
`AttributeError` from a failed concept lookup is its ConceptResolutionError.
-------------------------------------------------------------------------- -/
/-- A field descriptor, mirroring `_Field` of compiler/dsl.py (the unused
per-field `identify_by` marker is omitted; compile.py never reads it). -/
structure Field where
  kind : String
  label : String
  column : Option String
  functional : Bool
  value_concept : Option String
  value_extends : Option String
  create_value_concept : Bool
  target : Option String
  target_key : String
deriving DecidableEq, Repr

/-- The `Key` field constructor of dsl.py. -/
def KeyField (label column id_concept : String) (id_extends : Option String) : Field :=
  ⟨"key", label, some column, true, some id_concept, id_extends, true, none, "id"⟩

/-- The `Prop` field constructor of dsl.py. -/
def PropField (label column value_concept : String) (value_extends : Option String)
    (create_value_concept functional : Bool) : Field :=
  ⟨"prop", label, some column, functional, some value_concept, value_extends,
    create_value_concept, none, "id"⟩

/-- The `Ref` field constructor of dsl.py. -/
def RefField (label column target target_key : String) (functional : Bool) : Field :=
  ⟨"ref", label, some column, functional, none, none, true, some target, target_key⟩

/-- One declarative entity spec: its entity name, the ordered field map
collected by `EntitySpecMeta`, and the optional `__identify_by__` mapping. -/
structure EntitySpec where
  entity : String
  fields : List (String × Field)
  identify_by : Option (List (String × String))
deriving DecidableEq, Repr

/-- The schema context: the concept names assigned on the model so far. -/
structure Schema where
  concepts : List String
deriving DecidableEq, Repr

inductive CompileErr where
  | specValidation (msg : String)
  | conceptResolution (name : String)
deriving DecidableEq, Repr

/-- A row-binding statement emitted in phase 3 of `compile_entity`:
the identity instantiation (`rai.define(entity_concept.new(**identity_cols))`),
a property binding (`row.define(prop(col))`) or a reference binding
(`row.define(ref(target.filter_by(target_key=col)))`). -/
inductive Stmt where
  | newInstance (entity : String) (identityCols : List (String × String))
  | bindProp (entity attr column : String)
  | bindRef (entity attr column target targetKey : String)
deriving DecidableEq, Repr

/-- Python truthiness of an optional string: None and "" are falsy. -/
def optTruthy : Option String → Bool
  | none => false
  | some s => !s.isEmpty

def orEmpty : Option String → String
  | none => ""
  | some s => s

/-- `_ensure_value_concept` of compile.py lines 15-27: with `create=False` a
plain lookup (absent name raises, the ConceptResolutionError); otherwise
return the existing concept if present, else create one extending the given
base type (missing base type is a validation error). -/
def ensureValueConcept (s : Schema) (name : String) (ext : Option String)
    (create : Bool) : Except CompileErr (Schema × String) :=
  if !create then
    if name ∈ s.concepts then Except.ok (s, name)
    else Except.error (CompileErr.conceptResolution name)
  else if name ∈ s.concepts then Except.ok (s, name)
  else
    match ext with
    | none =>
      Except.error (CompileErr.specValidation ("Missing extends for value concept " ++ name))
    | some _ => Except.ok (⟨s.concepts ++ [name]⟩, name)

/-- `_ensure_entity_concept` of compile.py lines 30-36 (the id concept shapes
the created concept's identity, not the name registry). -/
def ensureEntityConcept (s : Schema) (entity : String) (idConcept : String) :
    Schema × String :=
  if entity ∈ s.concepts then (s, entity) else (⟨s.concepts ++ [entity]⟩, entity)

/-- `_ensure_entity_concept_identify_by` of compile.py lines 39-45. -/
def ensureEntityConceptIdentifyBy (s : Schema) (entity : String)
    (identifyBy : List (String × String)) : Schema × String :=
  if entity ∈ s.concepts then (s, entity) else (⟨s.concepts ++ [entity]⟩, entity)

/-- The message of the identity-shape ValueError of compile.py lines 116-118. -/
def identityShapeMsg (entity : String) (keys : Nat) : String :=
  entity ++ " must declare either exactly one Key field or a non-empty __identify_by__; found keys="
    ++ toString keys

/-- The composite-identity loop of compile.py lines 91-112: per
`__identify_by__` entry, the named field must be a Prop with a column whose
declared value concept (if any) matches; each component value concept is
ensured and its identity column recorded. -/
def compositeIdentity (s : Schema) (entity : String) (fields : List (String × Field)) :
    List (String × String) → Except CompileErr (Schema × List (String × String))
  | [] => Except.ok (s, [])
  | (attr, vcName) :: rest =>
    match (fields.find? (fun p => p.1 == attr)).map (fun p => p.2) with
    | none =>
      Except.error (CompileErr.specValidation
        (entity ++ ".__identify_by__ references unknown field: " ++ attr))
    | some f =>
      if f.kind != "prop" then
        Except.error (CompileErr.specValidation
          (entity ++ "." ++ attr ++ ": identity fields must be declared as Prop"))
      else if !optTruthy f.column then
        Except.error (CompileErr.specValidation
          (entity ++ "." ++ attr ++ ": identity Prop missing column"))
      else if optTruthy f.value_concept && f.value_concept != some vcName then
        Except.error (CompileErr.specValidation
          (entity ++ "." ++ attr ++ ": value_concept must match __identify_by__"))
      else
        match ensureValueConcept s vcName f.value_extends f.create_value_concept with
        | Except.error e => Except.error e
        | Except.ok (s1, _) =>
          match compositeIdentity s1 entity fields rest with
          | Except.error e => Except.error e
          | Except.ok (s2, cols) => Except.ok (s2, (attr, orEmpty f.column) :: cols)

/-- Step 1 of `compile_entity` (lines 67-118): identity resolution.  Exactly
one Key field: ensure its id value concept and the entity concept identified
by it.  No Key and a non-empty `__identify_by__`: the composite path.  Any
other shape is the identity-shape ValueError. -/
def identityResolution (s : Schema) (spec : EntitySpec) :
    Except CompileErr (Schema × List (String × String)) :=
  let keyItems := spec.fields.filter (fun p => p.2.kind == "key")
  match keyItems with
  | [(attr, f)] =>
    if !optTruthy f.column || !optTruthy f.value_concept then
      Except.error (CompileErr.specValidation
        (spec.entity ++ "." ++ attr ++ ": Key must declare column and id concept"))
    else
      match ensureValueConcept s (orEmpty f.value_concept) f.value_extends true with
      | Except.error e => Except.error e
      | Except.ok (s1, idc) =>
        let p := ensureEntityConcept s1 spec.entity idc
        Except.ok (p.1, [("id", orEmpty f.column)])
  | [] =>
    match spec.identify_by with
    | some ib =>
      if ib.isEmpty then
        Except.error (CompileErr.specValidation (identityShapeMsg spec.entity 0))
      else
        match compositeIdentity s spec.entity spec.fields ib with
        | Except.error e => Except.error e
        | Except.ok (s1, cols) =>
          let p := ensureEntityConceptIdentifyBy s1 spec.entity ib
          Except.ok (p.1, cols)
    | none => Except.error (CompileErr.specValidation (identityShapeMsg spec.entity 0))
  | _ =>
    Except.error (CompileErr.specValidation (identityShapeMsg spec.entity keyItems.length))

/-- Step 2 of `compile_entity` (lines 120-143): for every non-identity field
create a property or relationship on the entity concept (no effect on the
name registry) and, for Prop fields, ensure the field's value concept per its
`create_value_concept` flag. -/
def defineMembers (s : Schema) (entity : String) (compositeAttrs : List String) :
    List (String × Field) → Except CompileErr Schema
  | [] => Except.ok s
  | (attr, f) :: rest =>
    if f.kind == "key" then defineMembers s entity compositeAttrs rest
    else if compositeAttrs.contains attr then defineMembers s entity compositeAttrs rest
    else if f.kind == "prop" || f.kind == "ref" then
      if f.kind == "prop" then
        if !optTruthy f.value_concept then
          Except.error (CompileErr.specValidation
            (entity ++ "." ++ attr ++ ": Prop must declare value_concept"))
        else
          match ensureValueConcept s (orEmpty f.value_concept) f.value_extends
              f.create_value_concept with
          | Except.error e => Except.error e
          | Except.ok (s1, _) => defineMembers s1 entity compositeAttrs rest
      else defineMembers s entity compositeAttrs rest
    else Except.error (CompileErr.specValidation ("Unknown field kind: " ++ f.kind))

/-- Step 3 of `compile_entity` (lines 149-168): one binding statement per
remaining field, in declaration order.  Key fields are skipped, a missing
column aborts, identity Props are bound by the instantiation statement, Ref
fields look the target concept up in the schema context (an absent target is
the ConceptResolutionError, raised before this field's statement). -/
def bindFields (s : Schema) (entity : String) (identityAttrs : List String) :
    List (String × Field) → List Stmt × Option CompileErr
  | [] => ([], none)
  | (attr, f) :: rest =>
    if f.kind == "key" then bindFields s entity identityAttrs rest
    else if !optTruthy f.column then
      ([], some (CompileErr.specValidation (entity ++ "." ++ attr ++ ": missing column")))
    else if f.kind == "prop" then
      if identityAttrs.contains attr then bindFields s entity identityAttrs rest
      else
        let res := bindFields s entity identityAttrs rest
        (Stmt.bindProp entity attr (orEmpty f.column) :: res.1, res.2)
    else if f.kind == "ref" then
      if !optTruthy f.target then
        ([], some (CompileErr.specValidation (entity ++ "." ++ attr ++ ": Ref missing target")))
      else if !((orEmpty f.target) ∈ s.concepts : Bool) then
        ([], some (CompileErr.conceptResolution (orEmpty f.target)))
      else
        let res := bindFields s entity identityAttrs rest
        (Stmt.bindRef entity attr (orEmpty f.column) (orEmpty f.target) f.target_key :: res.1,
          res.2)
    else ([], some (CompileErr.specValidation ("Unknown field kind: " ++ f.kind)))

def compositeAttrsOf (spec : EntitySpec) : List String :=
  (spec.identify_by.getD []).map (fun p => p.1)

/-- `compile_entity` of compile.py lines 48-168: the both-identities check,
then identity resolution, member definition and row binding in order.  The
returned statement list is everything emitted before success or before the
error was raised. -/
def compileEntity (s : Schema) (spec : EntitySpec) : List Stmt × Except CompileErr Schema :=
  let keyItems := spec.fields.filter (fun p => p.2.kind == "key")
  if spec.identify_by.isSome ∧ 0 < keyItems.length then
    ([], Except.error (CompileErr.specValidation
      (spec.entity ++ " cannot define both Key and __identify_by__")))
  else
    match identityResolution s spec with
    | Except.error e => ([], Except.error e)
    | Except.ok (s1, identityCols) =>
      match defineMembers s1 spec.entity (compositeAttrsOf spec) spec.fields with
      | Except.error e => ([], Except.error e)
      | Except.ok s2 =>
        match bindFields s2 spec.entity (identityCols.map (fun p => p.1)) spec.fields with
        | (stmts, none) => (Stmt.newInstance spec.entity identityCols :: stmts, Except.ok s2)
        | (stmts, some e) =>
          (Stmt.newInstance spec.entity identityCols :: stmts, Except.error e)

/-- Whether a statement is a reference binding against the target concept
named `t`. -/
def refBindsTarget (t : String) : Stmt → Bool
  | Stmt.bindRef _ _ _ tgt _ => tgt == t
  | _ => false

def ctx0 : Schema := ⟨[]⟩

/-- An EntitySpec with a Key and a Ref whose target entity ("Taxon") is absent
from the schema context. -/
def refSpec : EntitySpec :=
  ⟨"Observation",
    [("id", KeyField "{Observation} has id {ObservationId}" "OBSID" "ObservationId"
        (some "Integer")),
     ("classification", RefField "{Observation} is classified as {Taxon}" "TAXONKEY" "Taxon"
        "id" true)],
    none⟩

def isSpecValidation : Except CompileErr Schema → Bool
  | Except.error (CompileErr.specValidation _) => true
  | _ => false

def keyCount (spec : EntitySpec) : Nat :=
  (spec.fields.filter (fun p => p.2.kind == "key")).length

def specBoth : EntitySpec :=
  ⟨"Trait",
    [("id", KeyField "{Trait} has id {TraitId}" "ID" "TraitId" (some "Integer")),
     ("name", PropField "{Trait} has name {TraitName}" "NAME" "TraitName" (some "String")
        true true)],
    some [("name", "TraitName")]⟩

def specTwoKeys : EntitySpec :=
  ⟨"Plant",
    [("id", KeyField "{Plant} has id {PlantId}" "ID" "PlantId" (some "Integer")),
     ("id2", KeyField "{Plant} has alt id {PlantAltId}" "ID2" "PlantAltId" (some "Integer"))],
    none⟩

/-- The shape of a shared value-concept declaration in a spec: a
(non-identity) Prop field declaring the value-concept name. -/
def declaresSharedVC (spec : EntitySpec) (name : String) : Prop :=
  ∃ attr f, (attr, f) ∈ spec.fields ∧ f.kind = "prop" ∧ f.value_concept = some name
    ∧ attr ∉ compositeAttrsOf spec

def specPlantShared : EntitySpec :=
  ⟨"Plant",
    [("id", KeyField "{Plant} has id {PlantId}" "ID" "PlantId" (some "Integer")),
     ("nm", PropField "{Plant} has name {SharedName}" "NAME" "SharedName" (some "String")
        true true)],
    none⟩

def specTraitShared : EntitySpec :=
  ⟨"Trait",
    [("id", KeyField "{Trait} has id {TraitId}" "ID" "TraitId" (some "Integer")),
     ("nm", PropField "{Trait} has name {SharedName}" "NAME" "SharedName" (some "String")
        true true)],
    none⟩

def schemaShared1 : Schema := ⟨["PlantId", "Plant", "SharedName"]⟩

def schemaShared2 : Schema := ⟨["PlantId", "Plant", "SharedName", "TraitId", "Trait"]⟩

theorem contains_iff {α : Type} [BEq α] [LawfulBEq α] (l : List α) (n : α) :
    l.contains n = true ↔ n ∈ l := by
  simp [List.contains]

theorem inView_mem {g : TaxonGraph} {r : Rank} {n : Nat} (h : inView g r n = true) :
    n ∈ g.nodes ∧ g.rank n = some r := by
  have h2 := h
  simp only [inView, Bool.and_eq_true, beq_iff_eq] at h2
  exact ⟨(contains_iff g.nodes n).mp h2.1, h2.2⟩

theorem ParentPath.mem_left {g : TaxonGraph} {n a k : Nat} (h : ParentPath g n a k) :
    n ∈ g.nodes := by
  cases h with
  | refl _ hm => exact hm
  | step hm _ _ => exact hm

theorem ancestorUpTo_of_path {g : TaxonGraph} {n a k : Nat} (h : ParentPath g n a k) :
    ∀ m : Nat, k ≤ m → ancestorUpTo g m n a = true := by
  induction h with
  | refl n hm =>
    intro m _
    induction m with
    | zero => simp [ancestorUpTo, contains_iff, hm]
    | succ m ih => simp [ancestorUpTo, ih]
  | step hm he hp ih =>
    intro m hk
    match m, hk with
    | m + 1, hk =>
      have hx : _ ∈ g.nodes := hp.mem_left
      simp only [ancestorUpTo, Bool.or_eq_true, List.any_eq_true]
      exact Or.inr ⟨_, hx, by simp [he, ih m (Nat.le_of_succ_le_succ hk)]⟩

theorem chainTo_path {g : TaxonGraph} {a : Nat} :
    ∀ (rs : List Rank) (n : Nat), n ∈ g.nodes → chainTo g n rs a = true →
      ParentPath g n a rs.length := by
  intro rs
  induction rs with
  | nil =>
    intro n hn h
    simp only [chainTo, beq_iff_eq] at h
    subst h
    exact ParentPath.refl n hn
  | cons r rs ih =>
    intro n hn h
    cases rs with
    | nil =>
      simp only [chainTo, Bool.and_eq_true] at h
      exact ParentPath.step hn h.2 (ParentPath.refl a (inView_mem h.1).1)
    | cons r2 rs2 =>
      simp only [chainTo, List.any_eq_true, Bool.and_eq_true] at h
      obtain ⟨x, hx, ⟨hv, he⟩, hc⟩ := h
      exact ParentPath.step hn he (ih x hx hc)

theorem chainTo_view {g : TaxonGraph} {a : Nat} :
    ∀ (rs : List Rank) (r : Rank) (n : Nat), chainTo g n (r :: rs) a = true →
      ∃ r2, inView g r2 a = true := by
  intro rs
  induction rs with
  | nil =>
    intro r n h
    simp only [chainTo, Bool.and_eq_true] at h
    exact ⟨r, h.1⟩
  | cons r2 rs2 ih =>
    intro r n h
    simp only [chainTo, List.any_eq_true, Bool.and_eq_true] at h
    obtain ⟨x, _, _, hc⟩ := h
    exact ih r2 x hc

theorem mem_ranksList (r : Rank) : r ∈ ranksList := by
  cases r <;> simp [ranksList]

/-- Every parent path is bounded by a strictly decreasing measure on the
nodes: the tool for checking the chain-depth side condition on a concrete
graph. -/
theorem path_le_measure {g : TaxonGraph} (f : Nat → Nat)
    (hf : ∀ x ∈ g.nodes, ∀ y ∈ g.nodes, g.parentEdge x y = true → f y < f x) :
    ∀ {n a k : Nat}, ParentPath g n a k → k ≤ f n := by
  intro n a k h
  induction h with
  | refl n hm => exact Nat.zero_le _
  | step hm he hp ih =>
    have hx := hp.mem_left
    exact Nat.succ_le_of_lt (Nat.lt_of_le_of_lt ih (hf _ hm _ hx he))

theorem path_bound {g : TaxonGraph} (f : Nat → Nat) (B : Nat)
    (hf : ∀ x ∈ g.nodes, ∀ y ∈ g.nodes, g.parentEdge x y = true → f y < f x)
    (hB : ∀ x ∈ g.nodes, f x ≤ B) :
    ∀ {n a k : Nat}, ParentPath g n a k → k ≤ B := by
  intro n a k h
  exact Nat.le_trans (path_le_measure f hf h) (hB n h.mem_left)

theorem ancestorPairs_of_chain {g : TaxonGraph} {mh n a : Nat} {rsrc : Rank}
    {rs : List Rank}
    (hb : ∀ x y k, ParentPath g x y k → k ≤ mh)
    (hsrc : inView g rsrc n = true) (hne : rs ≠ []) (hch : chainTo g n rs a = true) :
    ancestorPairs g mh n a = true := by
  have hn : n ∈ g.nodes := (inView_mem hsrc).1
  have hp : ParentPath g n a rs.length := chainTo_path rs n hn hch
  have hup : ancestorUpTo g mh n a = true :=
    ancestorUpTo_of_path hp mh (hb n a rs.length hp)
  match rs, hne with
  | r :: rs2, _ =>
    obtain ⟨r2, hv⟩ := chainTo_view rs2 r n hch
    simp only [ancestorPairs, List.any_eq_true]
    exact ⟨r2, mem_ranksList r2, by simp [ancestorRel, hup, hv]⟩

theorem ancestorPairs_of_self {g : TaxonGraph} {mh n a : Nat} {r : Rank}
    (hv : inView g r n = true) (heq : (n == a) = true) :
    ancestorPairs g mh n a = true := by
  have ha : n = a := beq_iff_eq.mp heq
  subst ha
  have hn : n ∈ g.nodes := (inView_mem hv).1
  have hup : ancestorUpTo g mh n n = true :=
    ancestorUpTo_of_path (ParentPath.refl n hn) mh (Nat.zero_le mh)
  simp only [ancestorPairs, List.any_eq_true]
  exact ⟨r, mem_ranksList r, by simp [ancestorRel, hup, hv]⟩

/-- C1: for any parent graph and any maxHops at least as large as the graph's
actual maximum chain depth (every realised parent path has length at most
`mh`), the set of (node, ancestor) pairs produced by strict-chain mode is a
subset of the set produced by ancestor-closure mode. -/
theorem taxonomy_strict_subset_ancestor (g : TaxonGraph) (mh n a : Nat)
    (hb : ∀ x y k, ParentPath g x y k → k ≤ mh)
    (hs : strictPairs g n a = true) :
    ancestorPairs g mh n a = true := by
  simp only [strictPairs, strictGenus, strictFamily, strictOrder, strictClass,
    strictPhylum, strictKingdom, Bool.or_eq_true, Bool.and_eq_true] at hs
  casesm* _ ∨ _
  all_goals
    rename_i h
    obtain ⟨h1, h2⟩ := h
    first
      | exact ancestorPairs_of_chain hb h1 (by simp) h2
      | exact ancestorPairs_of_self h1 h2

theorem taxonomy_strict_subset_ancestor_witness :
    strictPairs chainGraph 0 2 = true ∧ ancestorPairs chainGraph 8 0 2 = true :=
  ⟨by decide,
    taxonomy_strict_subset_ancestor chainGraph 8 0 2
      (fun x y k hp =>
        Nat.le_trans
          (path_bound (fun v => 2 - v) 2 (by decide) (by decide) hp)
          (by decide))
      (by decide)⟩

/-- C2: the hierarchy derivation engine offers two interchangeable strategies
(strict-chain and ancestor-closure), selected at derivation time by the mode
argument, with ancestor-closure bounded by the tunable maxHops parameter whose
default is 8. -/
theorem taxonomy_mode_selection :
    (∀ g mh n a, deriveTaxonomyPairs g TaxonomyMode.strict mh n a = strictPairs g n a)
    ∧ (∀ g mh n a, deriveTaxonomyPairs g TaxonomyMode.ancestor mh n a = ancestorPairs g mh n a)
    ∧ defaultMaxHops = 8 :=
  ⟨fun _ _ _ _ => rfl, fun _ _ _ _ => rfl, rfl⟩

/-- C6: in strict-chain mode, a species node whose parent edge skips the genus
rank (no parent of rank genus) gets no genus-ancestor relation, while
ancestor-closure mode still infers the family-ancestor relation across the
skipping edge (one hop suffices). -/
theorem skipped_rank_behavior (g : TaxonGraph) (n a f mh : Nat)
    (h1 : g.rank n = some Rank.species)
    (h2 : ∀ x ∈ g.nodes, g.parentEdge n x = true → g.rank x ≠ some Rank.genus)
    (h3 : g.parentEdge n f = true) (h4 : inView g Rank.family f = true)
    (h5 : 1 ≤ mh) :
    strictGenus g n a = false ∧ ancestorRel g mh Rank.family n f = true := by
  constructor
  · apply Bool.eq_false_iff.mpr
    intro hs
    simp only [strictGenus, chainTo, Bool.or_eq_true, Bool.and_eq_true] at hs
    rcases hs with ⟨_, hv, he⟩ | ⟨hg, _⟩
    · exact h2 a (inView_mem hv).1 he (inView_mem hv).2
    · have := (inView_mem hg).2
      rw [h1] at this
      exact Rank.noConfusion (Option.some.inj this)
  · have hf : f ∈ g.nodes := (inView_mem h4).1
    have hup : ancestorUpTo g mh n f = true := by
      match mh, h5 with
      | m + 1, _ =>
        simp only [ancestorUpTo, Bool.or_eq_true, List.any_eq_true]
        exact Or.inr ⟨f, hf,
          by simp [h3, ancestorUpTo_of_path (ParentPath.refl f hf) m (Nat.zero_le m)]⟩
    simp [ancestorRel, hup, h4]

theorem skipped_rank_behavior_witness :
    strictGenus skipGraph 0 2 = false ∧ ancestorRel skipGraph 8 Rank.family 0 2 = true :=
  skipped_rank_behavior skipGraph 0 2 2 8 (by decide) (by decide) (by decide) (by decide)
    (by decide)

/-- C7: in strict-chain mode every node relates to itself at its own rank,
for each of the six derived rank relations; and on the concrete 3-level chain
Species(0) → Genus(1) → Family(2) the family relation of the Family node is
exactly the singleton containing itself. -/
theorem strict_mode_reflexivity :
    (∀ g n, inView g Rank.genus n = true → strictGenus g n n = true)
    ∧ (∀ g n, inView g Rank.family n = true → strictFamily g n n = true)
    ∧ (∀ g n, inView g Rank.order n = true → strictOrder g n n = true)
    ∧ (∀ g n, inView g Rank.class_ n = true → strictClass g n n = true)
    ∧ (∀ g n, inView g Rank.phylum n = true → strictPhylum g n n = true)
    ∧ (∀ g n, inView g Rank.kingdom n = true → strictKingdom g n n = true)
    ∧ (∀ a, strictFamily chainGraph 2 a = true ↔ a = 2) := by
  refine ⟨?_, ?_, ?_, ?_, ?_, ?_, ?_⟩
  · intro g n hv; simp [strictGenus, hv]
  · intro g n hv; simp [strictFamily, hv]
  · intro g n hv; simp [strictOrder, hv]
  · intro g n hv; simp [strictClass, hv]
  · intro g n hv; simp [strictPhylum, hv]
  · intro g n hv; simp [strictKingdom, hv]
  · intro a
    simp only [strictFamily, chainTo, inView, chainGraph, TaxonGraph.rank,
      TaxonGraph.parentEdge, List.any_eq_true, Bool.or_eq_true, Bool.and_eq_true]
    constructor
    · intro h
      rcases h with (⟨⟨_, hr⟩, _⟩ | ⟨⟨_, hr⟩, _⟩) | ⟨_, he⟩
      · simp [List.find?] at hr
      · simp [List.find?] at hr
      · exact (beq_iff_eq.mp he).symm
    · intro h
      subst h
      exact Or.inr ⟨by decide, rfl⟩

/-- C8: the derived rank-level ancestor relation is set-valued in both
derivation modes: a node may relate to two distinct ancestors of the same
rank (two genus ancestors in strict mode, two family ancestors in
ancestor-closure mode — the latter even along a single-parent chain that
passes the family rank twice). -/
theorem rank_relation_set_valued :
    (strictGenus multiParentGraph 0 1 = true ∧ strictGenus multiParentGraph 0 2 = true
      ∧ (1 : Nat) ≠ 2)
    ∧ (strictFamily multiParentGraph 0 3 = true ∧ strictFamily multiParentGraph 0 4 = true
      ∧ (3 : Nat) ≠ 4)
    ∧ (ancestorRel multiParentGraph 8 Rank.genus 0 1 = true
      ∧ ancestorRel multiParentGraph 8 Rank.genus 0 2 = true)
    ∧ (ancestorRel dupRankGraph 8 Rank.family 0 1 = true
      ∧ ancestorRel dupRankGraph 8 Rank.family 0 2 = true) := by
  decide

/-- C9: the bound parent relation never relates a Taxon node to itself:
whatever the source rows, the emitted parent edge requires t1 ≠ t2, so
self-loops are excluded at bind time. -/
theorem parent_no_self_loop : ∀ (rows : List TaxonRow) (t : Nat),
    boundParent rows t t = false := by
  intro rows t
  simp [boundParent]

theorem bindFields_cr {entity : String} {ia : List String} :
    ∀ (fields : List (String × Field)) (s : Schema) (stmts : List Stmt) (t : String),
      bindFields s entity ia fields = (stmts, some (CompileErr.conceptResolution t)) →
      (t ∈ s.concepts → False) ∧ stmts.all (fun st => !refBindsTarget t st) = true := by
  intro fields
  induction fields with
  | nil =>
    intro s stmts t h
    simp [bindFields] at h
  | cons p rest ih =>
    intro s stmts t h
    obtain ⟨attr, f⟩ := p
    simp only [bindFields] at h
    split at h
    · exact ih s stmts t h
    · split at h
      · simp at h
      · split at h
        · split at h
          · exact ih s stmts t h
          · rcases hbf : bindFields s entity ia rest with ⟨ys, e⟩
            rw [hbf] at h
            rw [Prod.mk.injEq] at h
            obtain ⟨h1, h2⟩ := h
            subst h1
            subst h2
            obtain ⟨hni, hall⟩ := ih s ys t hbf
            refine ⟨hni, ?_⟩
            rw [List.all_cons, hall]
            rfl
        · split at h
          · split at h
            · simp at h
            · split at h
              · rename_i hnm
                rw [Prod.mk.injEq] at h
                obtain ⟨h1, h2⟩ := h
                subst h1
                have ht : orEmpty f.target = t := by
                  have hx := Option.some.inj h2
                  exact CompileErr.conceptResolution.inj hx
                subst ht
                refine ⟨fun hmem => ?_, by simp⟩
                rw [Bool.not_eq_true', decide_eq_false_iff_not] at hnm
                exact hnm hmem
              · rename_i hnm
                have htgt : orEmpty f.target ∈ s.concepts := by simpa using hnm
                rcases hbf : bindFields s entity ia rest with ⟨ys, e⟩
                rw [hbf] at h
                rw [Prod.mk.injEq] at h
                obtain ⟨h1, h2⟩ := h
                subst h1
                subst h2
                obtain ⟨hni, hall⟩ := ih s ys t hbf
                refine ⟨hni, ?_⟩
                have hne : (orEmpty f.target == t) = false := by
                  rw [beq_eq_false_iff_ne]
                  intro heq
                  exact hni (heq ▸ htgt)
                rw [List.all_cons, hall]
                simp [refBindsTarget, hne]
          · simp at h

/-- C3 (amended): when `compile_entity` fails with the concept-resolution
error for an absent Ref target `t`, no emitted row-binding statement binds a
reference against `t`: the error precedes the binding of the offending Ref
field, though the identity instantiation and bindings of earlier fields of
the same spec may already have been emitted. -/
theorem ref_binding_failure (s : Schema) (spec : EntitySpec) (stmts : List Stmt) (t : String)
    (h : compileEntity s spec = (stmts, Except.error (CompileErr.conceptResolution t))) :
    stmts.all (fun st => !refBindsTarget t st) = true := by
  simp only [compileEntity] at h
  split at h
  · simp at h
  · split at h
    · rw [Prod.mk.injEq] at h
      obtain ⟨h1, _⟩ := h
      subst h1
      simp
    · split at h
      · rw [Prod.mk.injEq] at h
        obtain ⟨h1, _⟩ := h
        subst h1
        simp
      · split at h
        · simp at h
        · rename_i stmts2 e hbf
          rw [Prod.mk.injEq] at h
          obtain ⟨h1, h2⟩ := h
          subst h1
          have he : e = CompileErr.conceptResolution t := Except.error.inj h2
          subst he
          obtain ⟨_, hall⟩ := bindFields_cr spec.fields _ stmts2 t hbf
          rw [List.all_cons, hall]
          rfl

/-- C3 counterexample: compiling `refSpec` against the empty schema context
does fail with the concept-resolution error for the absent target "Taxon",
but the row-binding statement instantiating the entity has already been
emitted — the error is not raised before every row-binding statement for the
spec. -/
theorem ref_binding_failure_cex :
    compileEntity ctx0 refSpec
      = ([Stmt.newInstance "Observation" [("id", "OBSID")]],
          Except.error (CompileErr.conceptResolution "Taxon"))
    ∧ [Stmt.newInstance "Observation" [("id", "OBSID")]] ≠ ([] : List Stmt) :=
  ⟨rfl, by simp⟩

theorem ref_binding_failure_witness :
    ([Stmt.newInstance "Observation" [("id", "OBSID")]] : List Stmt).all
      (fun st => !refBindsTarget "Taxon" st) = true :=
  ref_binding_failure ctx0 refSpec [Stmt.newInstance "Observation" [("id", "OBSID")]]
    "Taxon" rfl

/-- C4: compilation fails with the spec-validation error when the spec
declares both a Key field and a non-empty composite `__identify_by__`, and
also when it declares neither; in both cases nothing is emitted. -/
theorem identity_exclusivity (s : Schema) (spec : EntitySpec)
    (h : (1 ≤ keyCount spec ∧ ∃ l, spec.identify_by = some l ∧ l ≠ [])
        ∨ (keyCount spec = 0 ∧ spec.identify_by = none)) :
    (compileEntity s spec).1 = [] ∧ isSpecValidation (compileEntity s spec).2 = true := by
  rcases h with ⟨hk, l, hib, _⟩ | ⟨hk, hib⟩
  · have hcond : spec.identify_by.isSome ∧
        0 < (spec.fields.filter (fun p => p.2.kind == "key")).length :=
      ⟨by simp [hib], Nat.lt_of_lt_of_le Nat.zero_lt_one hk⟩
    simp only [compileEntity]
    rw [if_pos hcond]
    exact ⟨rfl, rfl⟩
  · have hkeys : spec.fields.filter (fun p => p.2.kind == "key") = [] :=
      List.length_eq_zero.mp hk
    have hcond : ¬ (spec.identify_by.isSome ∧
        0 < (spec.fields.filter (fun p => p.2.kind == "key")).length) := by
      intro hc
      rw [hib] at hc
      simp at hc
    simp only [compileEntity]
    rw [if_neg hcond]
    simp only [identityResolution, hkeys, hib]
    constructor <;> trivial

theorem identity_exclusivity_witness :
    (compileEntity ctx0 specBoth).1 = [] ∧ isSpecValidation (compileEntity ctx0 specBoth).2 = true :=
  identity_exclusivity ctx0 specBoth
    (Or.inl ⟨by decide, [("name", "TraitName")], rfl, by simp⟩)

/-- C10: a spec with two or more Key fields and no composite
`__identify_by__` is rejected with the identity-shape validation error
(nothing is silently selected and nothing is emitted); only the
exactly-one-Key shape reaches entity materialization. -/
theorem multiple_keys_rejected (s : Schema) (spec : EntitySpec)
    (h1 : spec.identify_by = none) (h2 : 2 ≤ keyCount spec) :
    (compileEntity s spec).1 = []
    ∧ (compileEntity s spec).2
        = Except.error (CompileErr.specValidation
            (identityShapeMsg spec.entity (keyCount spec))) := by
  have hcond : ¬ (spec.identify_by.isSome ∧
      0 < (spec.fields.filter (fun p => p.2.kind == "key")).length) := by
    intro hc
    rw [h1] at hc
    simp at hc
  rcases hkeys : spec.fields.filter (fun p => p.2.kind == "key") with _ | ⟨a, _ | ⟨b, rest⟩⟩
  · rw [keyCount, hkeys] at h2
    simp at h2
  · rw [keyCount, hkeys] at h2
    simp at h2
  · simp only [compileEntity]
    rw [if_neg hcond]
    simp only [identityResolution, hkeys, keyCount]
    constructor <;> trivial

theorem multiple_keys_rejected_witness :
    (compileEntity ctx0 specTwoKeys).1 = []
    ∧ (compileEntity ctx0 specTwoKeys).2
        = Except.error (CompileErr.specValidation
            (identityShapeMsg specTwoKeys.entity (keyCount specTwoKeys))) :=
  multiple_keys_rejected ctx0 specTwoKeys rfl (by decide)

theorem nodup_append_one {l : List String} {a : String} (hnd : l.Nodup) (ha : a ∉ l) :
    (l ++ [a]).Nodup := by
  simp [List.nodup_append, hnd, ha]

theorem contains_eq_false {α : Type} [BEq α] [LawfulBEq α] {l : List α} {a : α}
    (h : a ∉ l) : l.contains a = false := by
  rw [Bool.eq_false_iff]
  intro hc
  exact h ((contains_iff l a).mp hc)

/-- What a successful `_ensure_value_concept` does to the schema context:
either the name was already registered and the context is untouched (the
existing handle is returned), or the name was absent and exactly it is
appended; in both cases the name is registered afterwards. -/
theorem ensureValueConcept_ok {s s1 : Schema} {name hdl : String} {ext : Option String}
    {create : Bool}
    (hok : ensureValueConcept s name ext create = Except.ok (s1, hdl)) :
    (s1 = s ∨ (name ∉ s.concepts ∧ s1 = ⟨s.concepts ++ [name]⟩)) ∧ name ∈ s1.concepts := by
  simp only [ensureValueConcept] at hok
  split at hok
  · split at hok
    · rename_i hmem
      have h12 := Except.ok.inj hok
      rw [Prod.mk.injEq] at h12
      obtain ⟨h1, _⟩ := h12
      subst h1
      exact ⟨Or.inl rfl, hmem⟩
    · simp at hok
  · split at hok
    · rename_i hmem
      have h12 := Except.ok.inj hok
      rw [Prod.mk.injEq] at h12
      obtain ⟨h1, _⟩ := h12
      subst h1
      exact ⟨Or.inl rfl, hmem⟩
    · rename_i hmem
      split at hok
      · simp at hok
      · have h12 := Except.ok.inj hok
        rw [Prod.mk.injEq] at h12
        obtain ⟨h1, _⟩ := h12
        subst h1
        exact ⟨Or.inr ⟨hmem, rfl⟩, by simp⟩

theorem ensureValueConcept_mono {s s1 : Schema} {name hdl : String} {ext : Option String}
    {create : Bool}
    (hok : ensureValueConcept s name ext create = Except.ok (s1, hdl)) :
    ∀ x ∈ s.concepts, x ∈ s1.concepts := by
  intro x hx
  rcases (ensureValueConcept_ok hok).1 with h | ⟨_, h⟩
  · rw [h]; exact hx
  · rw [h]; exact List.mem_append_left _ hx

theorem ensureValueConcept_nodup {s s1 : Schema} {name hdl : String} {ext : Option String}
    {create : Bool}
    (hok : ensureValueConcept s name ext create = Except.ok (s1, hdl))
    (hnd : s.concepts.Nodup) : s1.concepts.Nodup := by
  rcases (ensureValueConcept_ok hok).1 with h | ⟨hna, h⟩
  · rw [h]; exact hnd
  · rw [h]; exact nodup_append_one hnd hna

theorem ensureEntityConcept_spec (s : Schema) (entity idc : String) :
    (ensureEntityConcept s entity idc).1 = s
    ∨ (entity ∉ s.concepts ∧ (ensureEntityConcept s entity idc).1 = ⟨s.concepts ++ [entity]⟩) := by
  unfold ensureEntityConcept
  split
  · exact Or.inl rfl
  · rename_i hmem
    exact Or.inr ⟨hmem, rfl⟩

theorem ensureEntityConceptIdentifyBy_spec (s : Schema) (entity : String)
    (ib : List (String × String)) :
    (ensureEntityConceptIdentifyBy s entity ib).1 = s
    ∨ (entity ∉ s.concepts
        ∧ (ensureEntityConceptIdentifyBy s entity ib).1 = ⟨s.concepts ++ [entity]⟩) := by
  unfold ensureEntityConceptIdentifyBy
  split
  · exact Or.inl rfl
  · rename_i hmem
    exact Or.inr ⟨hmem, rfl⟩

theorem entityStep_mono_nodup {s s1 : Schema}
    (h : s1 = s ∨ (∃ e, e ∉ s.concepts ∧ s1 = ⟨s.concepts ++ [e]⟩)) :
    (∀ x ∈ s.concepts, x ∈ s1.concepts) ∧ (s.concepts.Nodup → s1.concepts.Nodup) := by
  rcases h with h | ⟨e, he, h⟩
  · rw [h]; exact ⟨fun x hx => hx, fun hn => hn⟩
  · rw [h]
    exact ⟨fun x hx => List.mem_append_left _ hx, fun hn => nodup_append_one hn he⟩

theorem compositeIdentity_ok {entity : String} {fields : List (String × Field)} :
    ∀ (ib : List (String × String)) (s s1 : Schema) (cols : List (String × String)),
      compositeIdentity s entity fields ib = Except.ok (s1, cols) →
      (∀ x ∈ s.concepts, x ∈ s1.concepts) ∧ (s.concepts.Nodup → s1.concepts.Nodup) := by
  intro ib
  induction ib with
  | nil =>
    intro s s1 cols h
    simp only [compositeIdentity, Except.ok.injEq, Prod.mk.injEq] at h
    obtain ⟨h1, _⟩ := h
    subst h1
    exact ⟨fun x hx => hx, fun hn => hn⟩
  | cons p rest ih =>
    intro s s1 cols h
    obtain ⟨attr, vcName⟩ := p
    simp only [compositeIdentity] at h
    split at h
    · simp at h
    · split at h
      · simp at h
      · split at h
        · simp at h
        · split at h
          · simp at h
          · split at h
            · simp at h
            · rename_i smid hdl hev
              split at h
              · simp at h
              · rename_i s2 cols2 hrest
                have h12 := Except.ok.inj h
                rw [Prod.mk.injEq] at h12
                obtain ⟨h1, _⟩ := h12
                subst h1
                obtain ⟨hm, hn⟩ := ih smid s2 cols2 hrest
                exact ⟨fun x hx => hm x (ensureValueConcept_mono hev x hx),
                  fun hnd => hn (ensureValueConcept_nodup hev hnd)⟩

theorem identityResolution_ok {s s1 : Schema} {spec : EntitySpec}
    {cols : List (String × String)}
    (h : identityResolution s spec = Except.ok (s1, cols)) :
    (∀ x ∈ s.concepts, x ∈ s1.concepts) ∧ (s.concepts.Nodup → s1.concepts.Nodup) := by
  simp only [identityResolution] at h
  split at h
  · split at h
    · simp at h
    · split at h
      · simp at h
      · rename_i smid idc hev
        have h12 := Except.ok.inj h
        rw [Prod.mk.injEq] at h12
        obtain ⟨h1, _⟩ := h12
        subst h1
        have hstep := @entityStep_mono_nodup smid
          ((ensureEntityConcept smid spec.entity idc).1)
          (by
            rcases ensureEntityConcept_spec smid spec.entity idc with hh | ⟨he, hh⟩
            · exact Or.inl hh
            · exact Or.inr ⟨spec.entity, he, hh⟩)
        exact ⟨fun x hx => hstep.1 x (ensureValueConcept_mono hev x hx),
          fun hnd => hstep.2 (ensureValueConcept_nodup hev hnd)⟩
  · split at h
    · rename_i ib hib
      split at h
      · simp at h
      · split at h
        · simp at h
        · rename_i smid cols2 hci
          have h12 := Except.ok.inj h
          rw [Prod.mk.injEq] at h12
          obtain ⟨h1, _⟩ := h12
          subst h1
          obtain ⟨hm, hn⟩ := compositeIdentity_ok ib s smid cols2 hci
          have hstep := @entityStep_mono_nodup smid
            ((ensureEntityConceptIdentifyBy smid spec.entity ib).1)
            (by
              rcases ensureEntityConceptIdentifyBy_spec smid spec.entity ib with hh | ⟨he, hh⟩
              · exact Or.inl hh
              · exact Or.inr ⟨spec.entity, he, hh⟩)
          exact ⟨fun x hx => hstep.1 x (hm x hx), fun hnd => hstep.2 (hn hnd)⟩
    · simp at h
  · simp at h

theorem defineMembers_ok {entity : String} {compositeAttrs : List String} :
    ∀ (fields : List (String × Field)) (s s2 : Schema),
      defineMembers s entity compositeAttrs fields = Except.ok s2 →
      (∀ x ∈ s.concepts, x ∈ s2.concepts) ∧ (s.concepts.Nodup → s2.concepts.Nodup) := by
  intro fields
  induction fields with
  | nil =>
    intro s s2 h
    simp only [defineMembers, Except.ok.injEq] at h
    subst h
    exact ⟨fun x hx => hx, fun hn => hn⟩
  | cons p rest ih =>
    intro s s2 h
    obtain ⟨attr, f⟩ := p
    simp only [defineMembers] at h
    split at h
    · exact ih s s2 h
    · split at h
      · exact ih s s2 h
      · split at h
        · split at h
          · split at h
            · simp at h
            · split at h
              · simp at h
              · rename_i smid hdl hev
                obtain ⟨hm, hn⟩ := ih smid s2 h
                exact ⟨fun x hx => hm x (ensureValueConcept_mono hev x hx),
                  fun hnd => hn (ensureValueConcept_nodup hev hnd)⟩
          · exact ih s s2 h
        · simp at h

theorem defineMembers_vc {entity : String} {compositeAttrs : List String} :
    ∀ (fields : List (String × Field)) (s s2 : Schema) (attr : String) (f : Field)
      (name : String),
      defineMembers s entity compositeAttrs fields = Except.ok s2 →
      (attr, f) ∈ fields → f.kind = "prop" → f.value_concept = some name → name ≠ "" →
      attr ∉ compositeAttrs → name ∈ s2.concepts := by
  intro fields
  induction fields with
  | nil =>
    intro s s2 attr f name _ hmem
    simp at hmem
  | cons p rest ih =>
    intro s s2 attr f name h hmem hkind hvc hne hca
    obtain ⟨a2, f2⟩ := p
    rcases List.mem_cons.mp hmem with heq | htail
    · rw [Prod.mk.injEq] at heq
      obtain ⟨ha2, hf2⟩ := heq
      subst ha2
      subst hf2
      simp only [defineMembers] at h
      split at h
      · rename_i hk
        rw [hkind] at hk
        exact absurd hk (by decide)
      · split at h
        · rename_i hc
          exact absurd ((contains_iff _ _).mp hc) hca
        · split at h
          · split at h
            · split at h
              · simp at h
              · split at h
                · simp at h
                · rename_i smid hdl hev
                  have hmemmid : name ∈ smid.concepts := by
                    have hx := (ensureValueConcept_ok hev).2
                    rw [hvc] at hx
                    simpa [orEmpty] using hx
                  exact (defineMembers_ok rest smid s2 h).1 name hmemmid
            · rename_i hpr
              rw [hkind] at hpr
              exact absurd (by decide) hpr
          · rename_i hpf
            rw [hkind] at hpf
            exact absurd (by decide) hpf
    · simp only [defineMembers] at h
      split at h
      · exact ih s s2 attr f name h htail hkind hvc hne hca
      · split at h
        · exact ih s s2 attr f name h htail hkind hvc hne hca
        · split at h
          · split at h
            · split at h
              · simp at h
              · split at h
                · simp at h
                · rename_i smid hdl hev
                  exact ih smid s2 attr f name h htail hkind hvc hne hca
            · exact ih s s2 attr f name h htail hkind hvc hne hca
          · simp at h

theorem compileEntity_ok {s s2 : Schema} {spec : EntitySpec} {stmts : List Stmt}
    (h : compileEntity s spec = (stmts, Except.ok s2)) :
    (∀ x ∈ s.concepts, x ∈ s2.concepts) ∧ (s.concepts.Nodup → s2.concepts.Nodup)
    ∧ (∀ attr f name, (attr, f) ∈ spec.fields → f.kind = "prop" →
        f.value_concept = some name → name ≠ "" → attr ∉ compositeAttrsOf spec →
        name ∈ s2.concepts) := by
  simp only [compileEntity] at h
  split at h
  · simp at h
  · split at h
    · simp at h
    · rename_i s1 cols hir
      split at h
      · simp at h
      · rename_i s2x hdm
        split at h
        · rename_i stmts2 hbf
          rw [Prod.mk.injEq] at h
          obtain ⟨_, h2⟩ := h
          have hs2 : s2x = s2 := Except.ok.inj h2
          subst hs2
          obtain ⟨him, hin⟩ := identityResolution_ok hir
          obtain ⟨hdm1, hdn⟩ := defineMembers_ok spec.fields s1 s2x hdm
          refine ⟨fun x hx => hdm1 x (him x hx), fun hnd => hdn (hin hnd), ?_⟩
          intro attr f name hmem hkind hvc hne hca
          exact defineMembers_vc spec.fields s1 s2x attr f name hdm hmem hkind hvc hne hca
        · simp at h

/-- C5: concept creation is idempotent.  Compiling two EntitySpecs that both
declare the same shared value-concept name leaves exactly one concept of that
name in the schema context, and during the second compilation the request for
that name returns the existing handle on the unchanged context. -/
theorem idempotent_concept_creation (s0 s1 s2 : Schema) (spec1 spec2 : EntitySpec)
    (name : String) (ext : Option String) (st1 st2 : List Stmt)
    (hnd : s0.concepts.Nodup) (hne : name ≠ "")
    (h1 : compileEntity s0 spec1 = (st1, Except.ok s1))
    (h2 : compileEntity s1 spec2 = (st2, Except.ok s2))
    (hd1 : declaresSharedVC spec1 name) (hd2 : declaresSharedVC spec2 name) :
    s2.concepts.count name = 1
    ∧ ensureValueConcept s1 name ext true = Except.ok (s1, name) := by
  obtain ⟨attr, f, hmem, hkind, hvc, hca⟩ := hd1
  obtain ⟨hm1, hn1, hvc1⟩ := compileEntity_ok h1
  obtain ⟨hm2, hn2, _⟩ := compileEntity_ok h2
  have hmem1 : name ∈ s1.concepts := hvc1 attr f name hmem hkind hvc hne hca
  have hmem2 : name ∈ s2.concepts := hm2 name hmem1
  have hnd2 : s2.concepts.Nodup := hn2 (hn1 hnd)
  refine ⟨List.count_eq_one_of_mem hnd2 hmem2, ?_⟩
  simp only [ensureValueConcept, Bool.not_true, Bool.false_eq_true, if_false]
  rw [if_pos hmem1]

theorem idempotent_concept_creation_witness :
    schemaShared2.concepts.count "SharedName" = 1
    ∧ ensureValueConcept schemaShared1 "SharedName" (some "String") true
        = Except.ok (schemaShared1, "SharedName") :=
  idempotent_concept_creation ctx0 schemaShared1 schemaShared2 specPlantShared specTraitShared
    "SharedName" (some "String")
    [Stmt.newInstance "Plant" [("id", "ID")], Stmt.bindProp "Plant" "nm" "NAME"]
    [Stmt.newInstance "Trait" [("id", "ID")], Stmt.bindProp "Trait" "nm" "NAME"]
    (by simp [ctx0]) (by decide) rfl rfl
    ⟨"nm", PropField "{Plant} has name {SharedName}" "NAME" "SharedName" (some "String")
        true true, by simp [specPlantShared], rfl, rfl, by simp [compositeAttrsOf, specPlantShared]⟩
    ⟨"nm", PropField "{Trait} has name {SharedName}" "NAME" "SharedName" (some "String")
        true true, by simp [specTraitShared], rfl, rfl, by simp [compositeAttrsOf, specTraitShared]⟩

end Arq
